import Mathlib

/-!
Verification development for the Espruino software-serial core
(`src/src/jswrap_serial.c`).

The C code is shallowly embedded below: JavaScript values reaching the
wrapped functions become the inductive `JsVal`, the per-device persisted
state becomes `SerialPortState`, the `JshUSARTInfo` struct and the
`SWSerialStruct` encoder state become Lean structures, machine integers
become `Int`/`Nat` (with explicit `% 256` where the C code casts to
`unsigned char` and a 32-bit wrap where it casts to `int`), raised
exceptions become an explicit list of `JsError`s, and the externally
observable side effects (scheduled pin edges, direct pin writes, hardware
transmits, console printing) become an explicit trace of `TraceItem`s.
-/

namespace Espruino

/-- Shallow model of the JavaScript values the serial wrappers inspect:
`undefined`, `null`, integers and strings.  (These are the only shapes the
code under verification distinguishes via `jsvIsUndefined` / `jsvIsNull` /
`jsvIsInt` / `jsvIsString`.) -/
inductive JsVal where
  | undef
  | vnull
  | vint (i : Int)
  | vstr (s : String)
deriving DecidableEq

def jsvIsUndefined : JsVal → Bool
  | .undef => true
  | _ => false

def jsvIsNull : JsVal → Bool
  | .vnull => true
  | _ => false

def jsvIsInt : JsVal → Bool
  | .vint _ => true
  | _ => false

def jsvIsString : JsVal → Bool
  | .vstr _ => true
  | _ => false

/-- Model of `jsvIsStringEqual`: true only when the value is a string equal to
the literal (on a non-string value Espruino's `jsvIsStringEqual` is false). -/
def jsvIsStringEqual (v : JsVal) (s : String) : Bool :=
  match v with
  | .vstr t => t = s
  | _ => false

/-- Model of `jsvGetInteger` restricted to the shapes the serial code feeds
it: an integer value yields its integer, everything else yields 0. -/
def jsvGetInteger : JsVal → Int
  | .vint i => i
  | _ => 0

/-- C cast of a (possibly wide) integer to 32-bit signed `int`. -/
def toInt32 (i : Int) : Int := (i + 2 ^ 31) % 2 ^ 32 - 2 ^ 31

/-- C cast to `unsigned char`. -/
def toUChar (i : Int) : Nat := (i % 256).toNat

/-- Model of a `Pin`: `none` is `PIN_UNDEFINED` (no pin assigned). -/
def jshIsPinValid (p : Option Nat) : Bool := p.isSome

/-- Modelled from the spec: `jshGetPinFromVarAndUnLock` is platform code not
under `src/`; the spec only requires that the options carry pin
assignments, with a missing/invalid value meaning "no pin assigned".  A
non-negative integer denotes that pin, anything else is no pin. -/
def jshGetPinFromVar : JsVal → Option Nat
  | .vint i => if 0 ≤ i then some i.toNat else none
  | _ => none

/-- Mirror of the C struct `JshUSARTInfo` (fields the serial code uses). -/
structure JshUSARTInfo where
  baudRate : Int
  pinRX : Option Nat
  pinTX : Option Nat
  pinCK : Option Nat
  bytesize : Nat
  parity : Nat
  stopbits : Nat
  xOnXOff : Bool
deriving DecidableEq

/-- Modelled from the spec: `jshUSARTInitInfo` (platform code, not under
`src/`) fills the info struct with the defaults the spec names: baud 9600
(the documented default rate), no pins assigned, bit width 8, parity
none (0), one stop bit, no flow control. -/
def jshUSARTInitInfo : JshUSARTInfo :=
  { baudRate := 9600
    pinRX := none
    pinTX := none
    pinCK := none
    bytesize := 8
    parity := 0
    stopbits := 1
    xOnXOff := false }

/-- Errors raised via `jsExceptionHere` in the serial code. -/
inductive JsError where
  | invalidBaudRate
  | invalidParity (p : Nat)
  | invalidFlowControl
deriving DecidableEq

/-- The `options` object passed to `Serial.setup` (children the code reads;
an absent child reads as `undefined`). -/
structure JsOptions where
  rx : JsVal := .undef
  tx : JsVal := .undef
  ck : JsVal := .undef
  bytesize : JsVal := .undef
  parity : JsVal := .undef
  stopbits : JsVal := .undef
  flow : JsVal := .undef
deriving DecidableEq

/-- Embedding of `_jswrap_serial_getUsartInfo` (jswrap_serial.c lines
152-204).  `options = none` models a NULL / non-object options argument.
Each `jsExceptionHere` call is recorded, in order, in the returned error
list; note that the C function keeps executing after raising the baud
error, but does `return` right after raising the parity error (so the
stop-bit and flow-control parsing is skipped in that case). -/
def _jswrap_serial_getUsartInfo (baud : JsVal) (options : Option JsOptions) :
    JshUSARTInfo × List JsError :=
  let inf := jshUSARTInitInfo
  let step1 : JshUSARTInfo × List JsError :=
    if ¬ jsvIsUndefined baud then
      let b := toInt32 (jsvGetInteger baud)
      if b ≤ 100 ∨ 10000000 < b then (inf, [.invalidBaudRate])
      else ({ inf with baudRate := b }, [])
    else (inf, [])
  match options with
  | none => step1
  | some o =>
    let inf := step1.1
    let errs := step1.2
    let inf := { inf with
      pinRX := jshGetPinFromVar o.rx
      pinTX := jshGetPinFromVar o.tx
      pinCK := jshGetPinFromVar o.ck }
    let inf :=
      if jsvIsInt o.bytesize then { inf with bytesize := toUChar (jsvGetInteger o.bytesize) }
      else inf
    let inf := { inf with parity := 0 }
    let inf :=
      if jsvIsString o.parity then
        if jsvIsStringEqual o.parity "o" || jsvIsStringEqual o.parity "odd" then
          { inf with parity := 1 }
        else if jsvIsStringEqual o.parity "e" || jsvIsStringEqual o.parity "even" then
          { inf with parity := 2 }
        else inf
      else if jsvIsInt o.parity then { inf with parity := toUChar (jsvGetInteger o.parity) }
      else inf
    if 2 < inf.parity then (inf, errs ++ [.invalidParity inf.parity])
    else
      let inf :=
        if jsvIsInt o.stopbits then { inf with stopbits := toUChar (jsvGetInteger o.stopbits) }
        else inf
      if jsvIsUndefined o.flow || jsvIsNull o.flow || jsvIsStringEqual o.flow "none" then
        ({ inf with xOnXOff := false }, errs)
      else if jsvIsStringEqual o.flow "xon" then
        ({ inf with xOnXOff := true }, errs)
      else
        (inf, errs ++ [.invalidFlowControl])

/-- Persisted per-device state: the `USART_BAUDRATE_NAME` and
`DEVICE_OPTIONS_NAME` children stored on the Serial object. -/
structure SerialPortState where
  baudrateVar : Option Int
  optionsVar : Option JsOptions
deriving DecidableEq

/-- Embedding of `jswrap_serial_setup` (lines 206-226) restricted to its
effect on the persisted device state plus the raised errors.  Note the C
code stores `inf.baudRate` and the raw options object unconditionally
(after any exception): with no options object the stored options child is
removed.  (`jshUSARTSetup`, the hardware-side effect on real USARTs, is
external.) -/
def jswrap_serial_setup (_st : SerialPortState) (baud : JsVal) (options : Option JsOptions) :
    SerialPortState × List JsError :=
  let r := _jswrap_serial_getUsartInfo baud options
  ({ baudrateVar := some r.1.baudRate, optionsVar := options }, r.2)

/-- An edge submitted to the scheduler by
`jstPinOutputAtTime(time, &pinTX, 1, value)`. -/
structure EdgeEvent where
  time : Int
  pin : Option Nat
  level : Int
deriving DecidableEq

/-- Observable side effects of a print/write call, in order of occurrence. -/
inductive TraceItem where
  | console (bitLength : Int)
  | edge (e : EdgeEvent)
  | pinOut (pin : Option Nat) (level : Int)
  | transmit (data : Nat)
deriving DecidableEq

/-- Mirror of the C struct `SWSerialStruct` (lines 234-238). -/
structure SWSerialStruct where
  inf : JshUSARTInfo
  time : Int
  bitLength : Int
deriving DecidableEq

/-- Lines 244-249 of `_jswrap_serial_print_sw`: the composite frame word,
LSB first: `bitData = (data & ((1<<bytesize)-1)) << 1` then
`bitData |= ((1<<stopbits)-1) << (1+bytesize)`. -/
def swFrameData (bytesize stopbits data : Nat) : Nat :=
  ((data &&& (2 ^ bytesize - 1)) <<< 1) ||| ((2 ^ stopbits - 1) <<< (1 + bytesize))

/-- Lines 245/249: the composite frame bit count `1 + bytesize + stopbits`. -/
def swFrameCount (bytesize stopbits : Nat) : Nat := 1 + bytesize + stopbits

/-- The scan-out loop of `_jswrap_serial_print_sw` (lines 253-266): walk the
composite word LSB first tracking the current level `bVal` and run length
`bCnt`; on a level change advance the time by `bitLength * bCnt` and emit
one edge holding the previous level; after the loop advance by the
trailing run and emit the final edge.  Returns the final time together
with the emitted edges in submission order. -/
def swScan (pinTX : Option Nat) (bitLength : Int) :
    Nat → Nat → Int → Nat → Int → Int × List EdgeEvent
  | 0, _bitData, bVal, bCnt, time =>
    let t := time + bitLength * (bCnt : Int)
    (t, [⟨t, pinTX, bVal⟩])
  | bitCount + 1, bitData, bVal, bCnt, time =>
    let v : Int := ((bitData % 2 : Nat) : Int)
    let bitData := bitData / 2
    if bCnt ≠ 0 ∧ bVal ≠ v then
      let t := time + bitLength * (bCnt : Int)
      let rest := swScan pinTX bitLength bitCount bitData v 1 t
      (rest.1, ⟨t, pinTX, bVal⟩ :: rest.2)
    else
      swScan pinTX bitLength bitCount bitData v (bCnt + 1) time

/-- Embedding of `_jswrap_serial_print_sw` (lines 240-267).  Note line 243:
the code overwrites the configured byte size with 8 before building the
frame.  Line 251 prints a debug line carrying the bit length to the
interactive console.  The scan starts with `bVal = -1`, `bCnt = 0`. -/
def _jswrap_serial_print_sw (data : Nat) (s : SWSerialStruct) :
    SWSerialStruct × List TraceItem :=
  let inf := { s.inf with bytesize := 8 }
  let bitData := swFrameData inf.bytesize inf.stopbits data
  let bitCount := swFrameCount inf.bytesize inf.stopbits
  let res := swScan inf.pinTX s.bitLength bitCount bitData (-1) 0 s.time
  ({ inf := inf, time := res.1, bitLength := s.bitLength },
    .console s.bitLength :: res.2.map .edge)

/-- The byte iteration `jsvIterateCallback(arg, cb, cbdata)` with the
software callback: feed each byte in order to `_jswrap_serial_print_sw`,
threading the mutable `SWSerialStruct` and concatenating the traces. -/
def swEncodeBytes (s : SWSerialStruct) : List Nat → SWSerialStruct × List TraceItem
  | [] => (s, [])
  | b :: rest =>
    let r1 := _jswrap_serial_print_sw b s
    let r2 := swEncodeBytes r1.1 rest
    (r2.1, r1.2 ++ r2.2)

/-- Modelled from the spec: `jshGetTimeFromMilliseconds` (platform code, not
under `src/`) converts milliseconds to system-time ticks; the time base is
one tick per microsecond. -/
def jshGetTimeFromMilliseconds (ms : Int) : Int := ms * 1000

/-- Line 289: `bitLength = jshGetTimeFromMilliseconds(1000/(float)baudRate)`,
i.e. the duration of one bit at the configured rate.  Modelled from the
spec for the platform part: with a microsecond tick the floating-point
millisecond value `1000/baud` converts to `⌊10^6 / baud⌋` ticks. -/
def swBitLength (baudRate : Int) : Int := 1000000 / baudRate

/-- Line 280: the persisted `USART_BAUDRATE_NAME` child read back as a JS
value (`jsvObjectGetChild` yields undefined when absent). -/
def portBaudVal (st : SerialPortState) : JsVal :=
  match st.baudrateVar with
  | none => .undef
  | some b => .vint b

/-- Embedding of `_jswrap_serial_print` (lines 270-303).  `bytes` is the
flat byte sequence produced by the (external) byte-source iterator for the
argument; `deviceIsUsart` is the `DEVICE_IS_USART(device)` capability
check; `now` is `jshGetSystemTime()`.  Returns the observable trace and
the errors raised while re-parsing the persisted configuration. -/
def _jswrap_serial_print (st : SerialPortState) (deviceIsUsart : Bool)
    (bytes : List Nat) (newLine : Bool) (now : Int) :
    List TraceItem × List JsError :=
  let allBytes := bytes ++ (if newLine then [13, 10] else [])
  if deviceIsUsart then
    (allBytes.map .transmit, [])
  else
    let r := _jswrap_serial_getUsartInfo (portBaudVal st) st.optionsVar
    if ¬ jshIsPinValid r.1.pinTX then ([], r.2)
    else
      let s0 : SWSerialStruct :=
        { inf := r.1
          time := now + jshGetTimeFromMilliseconds 1000
          bitLength := swBitLength r.1.baudRate }
      let r1 := swEncodeBytes s0 allBytes
      (.pinOut r.1.pinTX 1 :: r1.2 ++ [.edge ⟨r1.1.time, r.1.pinTX, 1⟩], r.2)

/-- Times of the scheduled edges of a trace, in submission order. -/
def edgeTimeOf : TraceItem → Option Int
  | .edge e => some e.time
  | _ => none

def edgeTimes (tr : List TraceItem) : List Int := tr.filterMap edgeTimeOf

/-- Console debug lines of a trace, in order. -/
def consoleOf : TraceItem → Option Int
  | .console v => some v
  | _ => none

def consoleItems (tr : List TraceItem) : List Int := tr.filterMap consoleOf

/-- LSB-first reading of the low `n` bits of a word, as the list of bit
values the scan loop visits. -/
def bitsOf : Nat → Nat → List Nat
  | 0, _ => []
  | n + 1, d => (d % 2) :: bitsOf n (d / 2)

/-- The composite bit pattern exactly as the spec words it: bit 0 is the
start bit (logic 0); the next `bitWidth` bits are the byte's value bits,
LSB first; the next `stopBits` bits are logic 1 each. -/
def specCompositePattern (bitWidth stopBits data : Nat) : List Nat :=
  0 :: ((List.range bitWidth).map fun i => data / 2 ^ i % 2) ++ List.replicate stopBits 1

/-! Helper lemmas about the scan-out loop. -/

/-- The time returned by the scan loop is the starting time advanced by
`bitLength` times the number of bits left to scan plus the pending run. -/
theorem swScan_fst (p : Option Nat) (L : Int) :
    ∀ (n d : Nat) (bVal : Int) (bCnt : Nat) (t : Int),
      (swScan p L n d bVal bCnt t).1 = t + L * ((n : Int) + (bCnt : Int))
  | 0, d, b, c, t => by simp [swScan]
  | n + 1, d, b, c, t => by
    rw [swScan]
    split
    · rw [swScan_fst p L n]
      push_cast
      ring
    · rw [swScan_fst p L n]
      push_cast
      ring

/-- Invariant of the scan loop, entered with a pending run of at least one
bit and a positive bit length: every emitted edge is on the configured pin
with a time in `[t + L, final]`, the emission times are strictly
increasing, and the last edge is emitted exactly at the returned final
time. -/
theorem swScan_inv (p : Option Nat) (L : Int) (hL : 0 < L) :
    ∀ (n d : Nat) (bVal : Int) (bCnt : Nat) (t : Int), 1 ≤ bCnt →
      (∀ e ∈ (swScan p L n d bVal bCnt t).2,
          t + L ≤ e.time ∧ e.time ≤ (swScan p L n d bVal bCnt t).1 ∧ e.pin = p) ∧
      List.Chain' (· < ·) ((swScan p L n d bVal bCnt t).2.map EdgeEvent.time) ∧
      ((swScan p L n d bVal bCnt t).2.map EdgeEvent.time).getLast? =
        some (swScan p L n d bVal bCnt t).1
  | 0, d, b, c, t, hc => by
    have hc' : (1 : Int) ≤ (c : Int) := by exact_mod_cast hc
    have hle : t + L ≤ t + L * (c : Int) := by nlinarith
    refine ⟨?_, ?_, ?_⟩
    · intro e he
      simp only [swScan, List.mem_singleton] at he
      subst he
      exact ⟨hle, le_refl _, rfl⟩
    · simp [swScan]
    · simp [swScan]
  | n + 1, d, b, c, t, hc => by
    rw [swScan]
    split
    · rename_i hcond
      set v : Int := ((d % 2 : Nat) : Int) with hv
      set t' : Int := t + L * (c : Int) with ht'
      have hc' : (1 : Int) ≤ (c : Int) := by exact_mod_cast hc
      have htt' : t + L ≤ t' := by rw [ht']; nlinarith
      obtain ⟨ihmem, ihchain, ihlast⟩ := swScan_inv p L hL n (d / 2) v 1 t' (le_refl 1)
      have hfin : t' ≤ (swScan p L n (d / 2) v 1 t').1 := by
        rw [swScan_fst]
        have : (0 : Int) ≤ (n : Int) + ((1 : Nat) : Int) := by positivity
        nlinarith
      refine ⟨?_, ?_, ?_⟩
      · intro e he
        simp only [List.mem_cons] at he
        rcases he with he | he
        · subst he
          exact ⟨htt', hfin, rfl⟩
        · obtain ⟨h1, h2, h3⟩ := ihmem e he
          exact ⟨le_trans htt' (le_trans (by nlinarith) h1), h2, h3⟩
      · rw [List.map_cons, List.chain'_cons']
        refine ⟨?_, ihchain⟩
        intro y hy
        have hy' : y ∈ (swScan p L n (d / 2) v 1 t').2.map EdgeEvent.time :=
          List.mem_of_mem_head? hy
        obtain ⟨e, he, rfl⟩ := List.mem_map.1 hy'
        have := (ihmem e he).1
        simp only
        nlinarith
      · rw [List.map_cons, List.getLast?_cons, ihlast]
        rfl
    · rename_i hcond
      exact swScan_inv p L hL n (d / 2) _ (c + 1) t (Nat.le_add_left 1 c)

/-- The scan loop is entered by `_jswrap_serial_print_sw` with `bCnt = 0`;
its first iteration then only records the first bit, so the invariant
holds for any starting level. -/
theorem swScan_inv0 (p : Option Nat) (L : Int) (hL : 0 < L)
    (n d : Nat) (bVal : Int) (t : Int) :
    (∀ e ∈ (swScan p L (n + 1) d bVal 0 t).2,
        t + L ≤ e.time ∧ e.time ≤ (swScan p L (n + 1) d bVal 0 t).1 ∧ e.pin = p) ∧
    List.Chain' (· < ·) ((swScan p L (n + 1) d bVal 0 t).2.map EdgeEvent.time) ∧
    ((swScan p L (n + 1) d bVal 0 t).2.map EdgeEvent.time).getLast? =
      some (swScan p L (n + 1) d bVal 0 t).1 := by
  have h : swScan p L (n + 1) d bVal 0 t
      = swScan p L n (d / 2) ((d % 2 : Nat) : Int) 1 t := by
    rw [swScan]
    simp
  rw [h]
  exact swScan_inv p L hL n (d / 2) _ 1 t (le_refl 1)

theorem edgeTimes_map_edge (evs : List EdgeEvent) :
    List.filterMap edgeTimeOf (evs.map .edge) = evs.map EdgeEvent.time := by
  induction evs with
  | nil => rfl
  | cons e r ih => simp [edgeTimeOf, ih]

theorem consoleItems_map_edge (evs : List EdgeEvent) :
    List.filterMap consoleOf (evs.map .edge) = [] := by
  induction evs with
  | nil => rfl
  | cons e r ih => simp [consoleOf, ih]

/-- The edges `_jswrap_serial_print_sw` emits are exactly the scan of the
composite frame word starting from the struct's cursor. -/
theorem swPrintSw_trace (data : Nat) (s : SWSerialStruct) :
    (_jswrap_serial_print_sw data s).2
      = .console s.bitLength ::
        ((swScan s.inf.pinTX s.bitLength (swFrameCount 8 s.inf.stopbits)
          (swFrameData 8 s.inf.stopbits data) (-1) 0 s.time).2.map .edge) := rfl

theorem swPrintSw_fst (data : Nat) (s : SWSerialStruct) :
    (_jswrap_serial_print_sw data s).1.time
      = (swScan s.inf.pinTX s.bitLength (swFrameCount 8 s.inf.stopbits)
          (swFrameData 8 s.inf.stopbits data) (-1) 0 s.time).1 := rfl

/-- Encoding one byte advances the cursor by the bit length times the total
frame bit count `1 + 8 + stopbits` (the byte size having been forced to 8
by line 243), and the bit length itself is carried unchanged. -/
theorem swPrintSw_time (data : Nat) (s : SWSerialStruct) :
    (_jswrap_serial_print_sw data s).1.time
      = s.time + s.bitLength * (1 + 8 + (s.inf.stopbits : Int)) := by
  rw [swPrintSw_fst, swScan_fst]
  simp only [swFrameCount]
  push_cast
  ring

/-- Per-byte packaging of the scan invariant at the encoder level. -/
theorem swPrintSw_inv (data : Nat) (s : SWSerialStruct) (hL : 0 < s.bitLength) :
    s.time < (_jswrap_serial_print_sw data s).1.time ∧
    (∀ u ∈ edgeTimes (_jswrap_serial_print_sw data s).2,
        s.time < u ∧ u ≤ (_jswrap_serial_print_sw data s).1.time) ∧
    List.Chain' (· < ·) (edgeTimes (_jswrap_serial_print_sw data s).2) ∧
    (edgeTimes (_jswrap_serial_print_sw data s).2).getLast? =
      some (_jswrap_serial_print_sw data s).1.time := by
  have hcount : swFrameCount 8 s.inf.stopbits = (8 + s.inf.stopbits) + 1 := by
    simp only [swFrameCount]
    omega
  have hinv := swScan_inv0 s.inf.pinTX s.bitLength hL (8 + s.inf.stopbits)
    (swFrameData 8 s.inf.stopbits data) (-1) s.time
  rw [← hcount] at hinv
  obtain ⟨hmem, hchain, hlast⟩ := hinv
  have htr : edgeTimes (_jswrap_serial_print_sw data s).2
      = ((swScan s.inf.pinTX s.bitLength (swFrameCount 8 s.inf.stopbits)
          (swFrameData 8 s.inf.stopbits data) (-1) 0 s.time).2.map EdgeEvent.time) := by
    rw [swPrintSw_trace]
    simp only [edgeTimes, List.filterMap_cons]
    rw [show edgeTimeOf (.console s.bitLength) = none from rfl]
    exact edgeTimes_map_edge _
  refine ⟨?_, ?_, ?_, ?_⟩
  · rw [swPrintSw_time]
    have hs : (0 : Int) ≤ (s.inf.stopbits : Int) := by positivity
    nlinarith
  · intro u hu
    rw [htr] at hu
    obtain ⟨e, he, rfl⟩ := List.mem_map.1 hu
    obtain ⟨h1, h2, _⟩ := hmem e he
    exact ⟨by linarith, by rw [swPrintSw_fst]; exact h2⟩
  · rw [htr]
    exact hchain
  · rw [htr, swPrintSw_fst]
    exact hlast

/-- Invariant of a whole-call byte sequence encoding with positive bit
length: the bit length and pin are carried unchanged, the cursor never
decreases, every scheduled edge time lies strictly after the starting
cursor and at or before the final cursor, and the edge times are strictly
increasing across the whole byte sequence. -/
theorem swEncodeBytes_inv :
    ∀ (bytes : List Nat) (s : SWSerialStruct), 0 < s.bitLength →
      (swEncodeBytes s bytes).1.bitLength = s.bitLength ∧
      s.time ≤ (swEncodeBytes s bytes).1.time ∧
      (∀ u ∈ edgeTimes (swEncodeBytes s bytes).2,
          s.time < u ∧ u ≤ (swEncodeBytes s bytes).1.time) ∧
      List.Chain' (· < ·) (edgeTimes (swEncodeBytes s bytes).2)
  | [], s, hL => by
    refine ⟨rfl, le_refl _, ?_, ?_⟩
    · intro u hu
      simp [swEncodeBytes, edgeTimes] at hu
    · simp [swEncodeBytes, edgeTimes]
  | b :: rest, s, hL => by
    obtain ⟨hb1, hb2, hb3, hb4⟩ := swPrintSw_inv b s hL
    have hLs : (_jswrap_serial_print_sw b s).1.bitLength = s.bitLength := rfl
    obtain ⟨ih1, ih2, ih3, ih4⟩ :=
      swEncodeBytes_inv rest (_jswrap_serial_print_sw b s).1 (hLs ▸ hL)
    have hsplit : (swEncodeBytes s (b :: rest)).1
          = (swEncodeBytes (_jswrap_serial_print_sw b s).1 rest).1 ∧
        (swEncodeBytes s (b :: rest)).2
          = (_jswrap_serial_print_sw b s).2
            ++ (swEncodeBytes (_jswrap_serial_print_sw b s).1 rest).2 := ⟨rfl, rfl⟩
    rw [hsplit.1, hsplit.2]
    have happ : edgeTimes ((_jswrap_serial_print_sw b s).2
          ++ (swEncodeBytes (_jswrap_serial_print_sw b s).1 rest).2)
        = edgeTimes (_jswrap_serial_print_sw b s).2
          ++ edgeTimes (swEncodeBytes (_jswrap_serial_print_sw b s).1 rest).2 := by
      simp [edgeTimes]
    rw [happ]
    refine ⟨ih1.trans hLs, le_trans (le_of_lt hb1) ih2, ?_, ?_⟩
    · intro u hu
      rcases List.mem_append.1 hu with hu | hu
      · obtain ⟨h1, h2⟩ := hb2 u hu
        exact ⟨h1, h2.trans ih2⟩
      · obtain ⟨h1, h2⟩ := ih3 u hu
        exact ⟨hb1.trans h1, h2⟩
    · rw [List.chain'_append]
      refine ⟨hb3, ih4, ?_⟩
      intro x hx y hy
      rw [hb4] at hx
      have hx' : (_jswrap_serial_print_sw b s).1.time = x := by simpa using hx
      have hy' : y ∈ edgeTimes (swEncodeBytes (_jswrap_serial_print_sw b s).1 rest).2 :=
        List.mem_of_mem_head? hy
      rw [← hx']
      exact (ih3 y hy').1

/-- Shape of a software-sink print call's trace when a transmit pin is
assigned: the idle-high pin write, then the per-byte encodings, then the
single trailing idle edge at the final cursor time. -/
theorem print_trace_sw (st : SerialPortState) (bytes : List Nat) (nl : Bool) (now : Int)
    (hpin : jshIsPinValid
      (_jswrap_serial_getUsartInfo (portBaudVal st) st.optionsVar).1.pinTX = true) :
    _jswrap_serial_print st false bytes nl now
      = (.pinOut (_jswrap_serial_getUsartInfo (portBaudVal st) st.optionsVar).1.pinTX 1 ::
          (swEncodeBytes
            { inf := (_jswrap_serial_getUsartInfo (portBaudVal st) st.optionsVar).1
              time := now + jshGetTimeFromMilliseconds 1000
              bitLength := swBitLength
                (_jswrap_serial_getUsartInfo (portBaudVal st) st.optionsVar).1.baudRate }
            (bytes ++ (if nl then [13, 10] else []))).2
          ++ [.edge ⟨(swEncodeBytes
              { inf := (_jswrap_serial_getUsartInfo (portBaudVal st) st.optionsVar).1
                time := now + jshGetTimeFromMilliseconds 1000
                bitLength := swBitLength
                  (_jswrap_serial_getUsartInfo (portBaudVal st) st.optionsVar).1.baudRate }
              (bytes ++ (if nl then [13, 10] else []))).1.time,
            (_jswrap_serial_getUsartInfo (portBaudVal st) st.optionsVar).1.pinTX, 1⟩],
        (_jswrap_serial_getUsartInfo (portBaudVal st) st.optionsVar).2) := by
  simp only [_jswrap_serial_print, hpin, not_true, Bool.false_eq_true, if_false, ite_false]

/-! Claim theorems. -/

/-- C3: for every byte encoded in a software write call, after the final
trailing-run edge is emitted the time cursor has advanced by exactly
`bitLength × totalBitCount` relative to its value at the start of that
byte, where `totalBitCount = 1 + 8 + stopbits` is the total bit count of
the frame the encoder builds; the bit-length duration itself is carried
unchanged through the struct (it is computed once per call at line 289 and
never re-derived from the wall clock), so the cursor only ever advances by
exact integer multiples of it. -/
theorem swEncode_cursor_advance (data : Nat) (s : SWSerialStruct) :
    (_jswrap_serial_print_sw data s).1.time
      = s.time + s.bitLength * (1 + 8 + (s.inf.stopbits : Int)) ∧
    (_jswrap_serial_print_sw data s).1.bitLength = s.bitLength :=
  ⟨swPrintSw_time data s, rfl⟩

/-- C10: every byte encoded by the software sink also writes one debug line
to the interactive console (line 251), carrying the bit-length value; it
is emitted once per byte, before that byte's edges. -/
theorem swEncode_console_debug_once (data : Nat) (s : SWSerialStruct) :
    consoleItems (_jswrap_serial_print_sw data s).2 = [s.bitLength] ∧
    (_jswrap_serial_print_sw data s).2.head? = some (.console s.bitLength) := by
  refine ⟨?_, by rw [swPrintSw_trace]; rfl⟩
  rw [swPrintSw_trace]
  simp only [consoleItems, List.filterMap_cons]
  rw [show consoleOf (.console s.bitLength) = some s.bitLength from rfl,
    consoleItems_map_edge]

/-- C8: a write call on a software sink whose re-parsed stored configuration
has no valid transmit pin (and parses without raised errors) produces an
empty trace — no scheduled edges, no pin writes, no console output — and
raises no error, for every byte sequence. -/
theorem print_no_txpin_silent_noop (st : SerialPortState) (bytes : List Nat)
    (nl : Bool) (now : Int)
    (hpin : (_jswrap_serial_getUsartInfo (portBaudVal st) st.optionsVar).1.pinTX = none)
    (herr : (_jswrap_serial_getUsartInfo (portBaudVal st) st.optionsVar).2 = []) :
    _jswrap_serial_print st false bytes nl now = ([], []) := by
  simp only [_jswrap_serial_print, hpin, herr, Bool.false_eq_true, if_false,
    jshIsPinValid, Option.isSome_none]
  simp

/-- Witness for C8: an unconfigured port written with two bytes is a silent
no-op. -/
theorem print_no_txpin_silent_noop_wit :
    _jswrap_serial_print ⟨none, none⟩ false [65, 66] false 0 = ([], []) :=
  print_no_txpin_silent_noop ⟨none, none⟩ [65, 66] false 0 (by decide) (by decide)

/-- C4 (counterexample): with a configured software port (baud 9600,
transmit pin 3) a single-byte write submits its trailing idle edge at
exactly the same time as the last frame edge, so the submitted edge-time
sequence is not strictly increasing. -/
theorem print_edges_not_strictly_increasing_cex :
    ¬ List.Chain' (· < ·)
      (edgeTimes (_jswrap_serial_print
        ⟨some 9600, some { tx := .vint 3 }⟩ false [65] false 0).1) := by
  have h : edgeTimes (_jswrap_serial_print
      ⟨some 9600, some { tx := .vint 3 }⟩ false [65] false 0).1
    = [1000104, 1000208, 1000728, 1000832, 1000936, 1001040, 1001040] := by decide
  rw [h]
  intro hchain
  simp only [List.chain'_cons, List.chain'_singleton, and_true] at hchain
  omega

theorem edgeTimes_cons_pinOut (p : Option Nat) (lvl : Int) (l : List TraceItem) :
    edgeTimes (.pinOut p lvl :: l) = edgeTimes l := by
  simp [edgeTimes, edgeTimeOf]

theorem edgeTimes_append (l1 l2 : List TraceItem) :
    edgeTimes (l1 ++ l2) = edgeTimes l1 ++ edgeTimes l2 := by
  simp [edgeTimes]

/-- A software print call with no valid transmit pin schedules nothing. -/
theorem print_trace_nopin (st : SerialPortState) (bytes : List Nat) (nl : Bool) (now : Int)
    (hpin : jshIsPinValid
      (_jswrap_serial_getUsartInfo (portBaudVal st) st.optionsVar).1.pinTX = false) :
    (_jswrap_serial_print st false bytes nl now).1 = [] := by
  simp only [_jswrap_serial_print, hpin, Bool.false_eq_true, if_false]
  simp

/-- C4 (amended): within one software write call the submitted edge times
are non-decreasing across the whole call; they are strictly increasing
through the per-byte frame encodings, and only the single trailing idle
edge coincides in time with the last frame edge; the time cursor is
monotonically non-decreasing across the call (assuming a positive bit
period, which the claim presupposes). -/
theorem print_edges_monotone (st : SerialPortState) (bytes : List Nat)
    (nl : Bool) (now : Int)
    (hL : 0 < swBitLength
      (_jswrap_serial_getUsartInfo (portBaudVal st) st.optionsVar).1.baudRate) :
    List.Chain' (· ≤ ·) (edgeTimes (_jswrap_serial_print st false bytes nl now).1) ∧
    (∀ s : SWSerialStruct, 0 < s.bitLength →
      List.Chain' (· < ·) (edgeTimes (swEncodeBytes s bytes).2) ∧
      s.time ≤ (swEncodeBytes s bytes).1.time) := by
  constructor
  · by_cases hpin : jshIsPinValid
        (_jswrap_serial_getUsartInfo (portBaudVal st) st.optionsVar).1.pinTX = true
    · rw [print_trace_sw st bytes nl now hpin]
      simp only [edgeTimes_cons_pinOut, edgeTimes_append]
      obtain ⟨hpres, hmono, hbound, hchain⟩ := swEncodeBytes_inv
        (bytes ++ (if nl then [13, 10] else []))
        { inf := (_jswrap_serial_getUsartInfo (portBaudVal st) st.optionsVar).1
          time := now + jshGetTimeFromMilliseconds 1000
          bitLength := swBitLength
            (_jswrap_serial_getUsartInfo (portBaudVal st) st.optionsVar).1.baudRate }
        hL
      rw [List.chain'_append]
      refine ⟨hchain.imp (fun a b h => le_of_lt h), List.chain'_singleton _, ?_⟩
      intro x hx y hy
      have hx' : x ∈ edgeTimes (swEncodeBytes
          { inf := (_jswrap_serial_getUsartInfo (portBaudVal st) st.optionsVar).1
            time := now + jshGetTimeFromMilliseconds 1000
            bitLength := swBitLength
              (_jswrap_serial_getUsartInfo (portBaudVal st) st.optionsVar).1.baudRate }
          (bytes ++ (if nl then [13, 10] else []))).2 :=
        List.mem_of_mem_getLast? hx
      have hy' : y = (swEncodeBytes
          { inf := (_jswrap_serial_getUsartInfo (portBaudVal st) st.optionsVar).1
            time := now + jshGetTimeFromMilliseconds 1000
            bitLength := swBitLength
              (_jswrap_serial_getUsartInfo (portBaudVal st) st.optionsVar).1.baudRate }
          (bytes ++ (if nl then [13, 10] else []))).1.time := by
        have := by simpa [edgeTimes, edgeTimeOf] using hy
        exact this.symm
      rw [hy']
      exact (hbound x hx').2
    · rw [print_trace_nopin st bytes nl now (by simpa using hpin)]
      exact List.chain'_nil
  · intro s hs
    obtain ⟨_, hmono, _, hchain⟩ := swEncodeBytes_inv bytes s hs
    exact ⟨hchain, hmono⟩

/-- Witness for C4 (amended) at a configured 9600-baud software port
writing one byte. -/
theorem print_edges_monotone_wit :
    List.Chain' (· ≤ ·)
      (edgeTimes (_jswrap_serial_print
        ⟨some 9600, some { tx := .vint 3 }⟩ false [65] false 0).1) :=
  (print_edges_monotone ⟨some 9600, some { tx := .vint 3 }⟩ [65] false 0 (by decide)).1

/-- C2 (counterexample): with the 9600-baud, 8-data-bit, one-stop-bit
configuration the encoder emits 6 edges for byte 0x41, not 4: the claim's
pattern `0,1,0,0,0,0,0,1,1` omits the zero-valued eighth data bit of the
8-bit frame. -/
theorem swEncode_byte65_edgecount_cex :
    (edgeTimes (_jswrap_serial_print_sw 65
      { inf := { jshUSARTInitInfo with pinTX := some 3 }
        time := 0
        bitLength := swBitLength 9600 }).2).length ≠ 4 := by
  decide

/-- C2 (amended): with bit width 8 and one stop bit the composite pattern
of byte 0x41 is (LSB first) `0,1,0,0,0,0,0,1,0,1`, with runs 0×1, 1×1,
0×5, 1×1, 0×1, 1×1: the encoder emits exactly 6 edges, at cumulative
times `bitPeriod × {1, 2, 7, 8, 9, 10}` relative to the cursor value at
the start of the byte, holding levels 0,1,0,1,0,1, and leaves the cursor
at `bitPeriod × 10` past its starting value (shown here for every bit
period `L` and every pin, hence in particular for baud 9600). -/
theorem swEncode_byte65_edges (L t0 : Int) (p : Option Nat) :
    _jswrap_serial_print_sw 65
        { inf := { jshUSARTInitInfo with pinTX := p }, time := t0, bitLength := L }
      = ({ inf := { jshUSARTInitInfo with pinTX := p }, time := t0 + L * 10, bitLength := L },
          [.console L,
            .edge ⟨t0 + L * 1, p, 0⟩, .edge ⟨t0 + L * 2, p, 1⟩,
            .edge ⟨t0 + L * 7, p, 0⟩, .edge ⟨t0 + L * 8, p, 1⟩,
            .edge ⟨t0 + L * 9, p, 0⟩, .edge ⟨t0 + L * 10, p, 1⟩]) := by
  have hword : swFrameData 8 1 65 = 642 := by decide
  simp only [_jswrap_serial_print_sw, swFrameCount, jshUSARTInitInfo]
  norm_num [hword, swScan]
  omega

/-- Per-byte step fact: the 8N1 frame of byte 65 at bit length 104 on pin 3
encoded from cursor `t0`. -/
theorem swByte65_step (t0 : Int) :
    _jswrap_serial_print_sw 65 ⟨⟨9600, none, some 3, none, 8, 0, 1, false⟩, t0, 104⟩
      = (⟨⟨9600, none, some 3, none, 8, 0, 1, false⟩, t0 + 1040, 104⟩,
          [.console 104,
            .edge ⟨t0 + 104, some 3, 0⟩, .edge ⟨t0 + 208, some 3, 1⟩,
            .edge ⟨t0 + 728, some 3, 0⟩, .edge ⟨t0 + 832, some 3, 1⟩,
            .edge ⟨t0 + 936, some 3, 0⟩, .edge ⟨t0 + 1040, some 3, 1⟩]) := by
  have hword : swFrameData 8 1 65 = 642 := by decide
  simp only [_jswrap_serial_print_sw, swFrameCount]
  norm_num [hword, swScan]
  omega

/-- Per-byte step fact: the 8N1 frame of byte 66 at bit length 104 on pin 3
encoded from cursor `t0`. -/
theorem swByte66_step (t0 : Int) :
    _jswrap_serial_print_sw 66 ⟨⟨9600, none, some 3, none, 8, 0, 1, false⟩, t0, 104⟩
      = (⟨⟨9600, none, some 3, none, 8, 0, 1, false⟩, t0 + 1040, 104⟩,
          [.console 104,
            .edge ⟨t0 + 208, some 3, 0⟩, .edge ⟨t0 + 312, some 3, 1⟩,
            .edge ⟨t0 + 728, some 3, 0⟩, .edge ⟨t0 + 832, some 3, 1⟩,
            .edge ⟨t0 + 936, some 3, 0⟩, .edge ⟨t0 + 1040, some 3, 1⟩]) := by
  have hword : swFrameData 8 1 66 = 644 := by decide
  simp only [_jswrap_serial_print_sw, swFrameCount]
  norm_num [hword, swScan]
  omega

/-- C9: a `write([65, 66])` call on a software-only 9600-baud port encodes
exactly two independent frames back to back — byte 65's edges at bit
offsets {1,2,7,8,9,10}, then byte 66's at offsets {12,13,17,18,19,20}
relative to the seeded cursor — the cursor advances by exactly two full
frame durations `2 × (bitPeriod × 10)`, and a single trailing idle-level
edge is scheduled once, at the final cursor time after the second frame,
not after each byte. -/
theorem write_two_bytes_trace (now : Int) :
    _jswrap_serial_print ⟨some 9600, some { tx := .vint 3 }⟩ false [65, 66] false now
      = ([.pinOut (some 3) 1,
          .console 104,
          .edge ⟨now + 1000000 + 104 * 1, some 3, 0⟩,
          .edge ⟨now + 1000000 + 104 * 2, some 3, 1⟩,
          .edge ⟨now + 1000000 + 104 * 7, some 3, 0⟩,
          .edge ⟨now + 1000000 + 104 * 8, some 3, 1⟩,
          .edge ⟨now + 1000000 + 104 * 9, some 3, 0⟩,
          .edge ⟨now + 1000000 + 104 * 10, some 3, 1⟩,
          .console 104,
          .edge ⟨now + 1000000 + 104 * 12, some 3, 0⟩,
          .edge ⟨now + 1000000 + 104 * 13, some 3, 1⟩,
          .edge ⟨now + 1000000 + 104 * 17, some 3, 0⟩,
          .edge ⟨now + 1000000 + 104 * 18, some 3, 1⟩,
          .edge ⟨now + 1000000 + 104 * 19, some 3, 0⟩,
          .edge ⟨now + 1000000 + 104 * 20, some 3, 1⟩,
          .edge ⟨now + 1000000 + 2 * (104 * 10), some 3, 1⟩], []) := by
  have hinf : _jswrap_serial_getUsartInfo
      (portBaudVal ⟨some 9600, some { tx := .vint 3 }⟩) (some { tx := .vint 3 })
      = (⟨9600, none, some 3, none, 8, 0, 1, false⟩, []) := by decide
  have hbl : swBitLength 9600 = 104 := by decide
  have hms : jshGetTimeFromMilliseconds 1000 = 1000000 := by decide
  rw [print_trace_sw _ _ _ _ (by decide), hinf]
  dsimp only
  rw [hms, hbl]
  simp only [swEncodeBytes]
  rw [swByte65_step (now + 1000000)]
  dsimp only
  rw [swByte66_step (now + 1000000 + 1040)]
  dsimp only
  simp only [List.cons_append, List.nil_append, List.append_nil]
  norm_num
  omega

/-- C5 (counterexample): configuring a port whose persisted baud rate is
19200 with the invalid rate 50 raises `InvalidBaudRate` but does not leave
the persisted rate unchanged: it is overwritten with the default 9600. -/
theorem setup_invalid_baud_cex :
    (jswrap_serial_setup ⟨some 19200, none⟩ (.vint 50) none).1.baudrateVar ≠ some 19200 ∧
    (jswrap_serial_setup ⟨some 19200, none⟩ (.vint 50) none).2 = [.invalidBaudRate] := by
  decide

/-- C5 (amended): configuring with an out-of-range baud rate (e.g. 50 or
20 000 000 — any integer whose 32-bit reading is outside (100, 10^7])
raises `InvalidBaudRate`, but the persisted baud rate is then overwritten
with the initialisation default 9600 rather than left unchanged (line 220
runs unconditionally after the exception), and the stored options child is
replaced by the supplied argument (removed here, where none is given). -/
theorem setup_invalid_baud (st : SerialPortState) (b : Int)
    (h : toInt32 b ≤ 100 ∨ 10000000 < toInt32 b) :
    jswrap_serial_setup st (.vint b) none
      = (⟨some 9600, none⟩, [.invalidBaudRate]) := by
  simp [jswrap_serial_setup, _jswrap_serial_getUsartInfo, jsvIsUndefined, jsvGetInteger,
    jshUSARTInitInfo, h]

/-- Witness for C5 (amended) at baud 50 over a port persisting 19200. -/
theorem setup_invalid_baud_wit :
    jswrap_serial_setup ⟨some 19200, none⟩ (.vint 50) none
      = (⟨some 9600, none⟩, [.invalidBaudRate]) :=
  setup_invalid_baud ⟨some 19200, none⟩ 50 (by decide)

/-- C6 (counterexample): configuring with only a valid baud value removes
the previously stored options (here a parity setting) instead of leaving
them unchanged. -/
theorem setup_baud_only_cex :
    (jswrap_serial_setup ⟨some 9600, some { parity := .vstr "odd" }⟩
        (.vint 9600) none).1.optionsVar
      ≠ some { parity := .vstr "odd" } := by
  decide

/-- C6 (amended): configuring with only a valid baud value is not a partial
update: the new baud is persisted, but the previously stored options child
is removed (line 225), so prior pin/parity/stop-bit options are discarded
and the configuration applied uses the initialisation defaults. -/
theorem setup_baud_only (st : SerialPortState) (b : Int)
    (h1 : 100 < toInt32 b) (h2 : toInt32 b ≤ 10000000) :
    jswrap_serial_setup st (.vint b) none = (⟨some (toInt32 b), none⟩, []) := by
  have hcond : ¬ (toInt32 b ≤ 100 ∨ 10000000 < toInt32 b) := by omega
  simp [jswrap_serial_setup, _jswrap_serial_getUsartInfo, jsvIsUndefined, jsvGetInteger,
    jshUSARTInitInfo, hcond]

/-- Witness for C6 (amended): a port persisting odd parity options loses
them when reconfigured with only a baud value. -/
theorem setup_baud_only_wit :
    jswrap_serial_setup ⟨some 300, some { parity := .vstr "odd" }⟩ (.vint 9600) none
      = (⟨some (toInt32 9600), none⟩, []) :=
  setup_baud_only ⟨some 300, some { parity := .vstr "odd" }⟩ 9600 (by decide) (by decide)

/-- C7 (counterexample): the parity string "banana" — not one of the
recognized symbolic forms — is accepted silently and normalized to 0
instead of failing with `InvalidParity`. -/
theorem parity_unknown_string_cex :
    (_jswrap_serial_getUsartInfo .undef (some { parity := .vstr "banana" })).1.parity = 0 ∧
    (_jswrap_serial_getUsartInfo .undef (some { parity := .vstr "banana" })).2 = [] := by
  decide

/-- C7 (amended): parity handling normalizes "o"/"odd" to 1 and
"e"/"even" to 2; an integer whose unsigned-char reduction is at most 2
(in particular 0/1/2) is kept; an integer reducing above 2 fails with
`InvalidParity`; every other value — "none", any unrecognized string, and
undefined/null — is silently normalized to parity 0 without error, rather
than failing. -/
theorem parity_normalization (p : JsVal) :
    ((p = .vstr "o" ∨ p = .vstr "odd") →
      (_jswrap_serial_getUsartInfo .undef (some { parity := p })).1.parity = 1 ∧
      (_jswrap_serial_getUsartInfo .undef (some { parity := p })).2 = []) ∧
    ((p = .vstr "e" ∨ p = .vstr "even") →
      (_jswrap_serial_getUsartInfo .undef (some { parity := p })).1.parity = 2 ∧
      (_jswrap_serial_getUsartInfo .undef (some { parity := p })).2 = []) ∧
    (∀ s : String, p = .vstr s → s ∉ (["o", "odd", "e", "even"] : List String) →
      (_jswrap_serial_getUsartInfo .undef (some { parity := p })).1.parity = 0 ∧
      (_jswrap_serial_getUsartInfo .undef (some { parity := p })).2 = []) ∧
    (∀ k : Int, p = .vint k → toUChar k ≤ 2 →
      (_jswrap_serial_getUsartInfo .undef (some { parity := p })).1.parity = toUChar k ∧
      (_jswrap_serial_getUsartInfo .undef (some { parity := p })).2 = []) ∧
    (∀ k : Int, p = .vint k → 2 < toUChar k →
      (_jswrap_serial_getUsartInfo .undef (some { parity := p })).2
        = [.invalidParity (toUChar k)]) ∧
    ((p = .undef ∨ p = .vnull) →
      (_jswrap_serial_getUsartInfo .undef (some { parity := p })).1.parity = 0 ∧
      (_jswrap_serial_getUsartInfo .undef (some { parity := p })).2 = []) := by
  refine ⟨?_, ?_, ?_, ?_, ?_, ?_⟩
  · rintro (rfl | rfl) <;> exact ⟨by decide, by decide⟩
  · rintro (rfl | rfl) <;> exact ⟨by decide, by decide⟩
  · rintro s rfl hs
    simp only [List.mem_cons, List.not_mem_nil, or_false, not_or] at hs
    obtain ⟨h1, h2, h3, h4⟩ := hs
    constructor <;>
      simp [_jswrap_serial_getUsartInfo, jsvIsUndefined, jsvIsString, jsvIsInt,
        jsvIsNull, jsvIsStringEqual, jshUSARTInitInfo, h1, h2, h3, h4]
  · rintro k rfl hk
    constructor <;>
      simp [_jswrap_serial_getUsartInfo, jsvIsUndefined, jsvIsString, jsvIsInt,
        jsvIsNull, jsvIsStringEqual, jsvGetInteger, jshUSARTInitInfo, Nat.not_lt.2 hk]
  · rintro k rfl hk
    simp [_jswrap_serial_getUsartInfo, jsvIsUndefined, jsvIsString, jsvIsInt,
      jsvIsNull, jsvIsStringEqual, jsvGetInteger, jshUSARTInitInfo, hk]
  · rintro (rfl | rfl) <;> exact ⟨by decide, by decide⟩

/-- Witness for C7 (amended) at the unrecognized parity string "banana". -/
theorem parity_normalization_wit :
    (_jswrap_serial_getUsartInfo .undef
        (some { parity := .vstr "banana" })).1.parity = 0 ∧
    (_jswrap_serial_getUsartInfo .undef
        (some { parity := .vstr "banana" })).2 = [] :=
  ((parity_normalization (.vstr "banana")).2.2.1 "banana" rfl (by decide))

/-- Reading the low `n` bits LSB first is taking bit `i` for `i < n`. -/
theorem bitsOf_eq_range_map : ∀ (n m : Nat),
    bitsOf n m = (List.range n).map (fun i => m / 2 ^ i % 2)
  | 0, m => rfl
  | n + 1, m => by
    rw [bitsOf, bitsOf_eq_range_map n (m / 2), List.range_succ_eq_map, List.map_cons,
      List.map_map]
    refine congrArg₂ _ (by norm_num) (List.map_congr_left ?_)
    intro i _
    simp only [Function.comp_apply]
    rw [Nat.div_div_eq_div_mul, ← pow_succ']

/-- Bitwise or of disjoint fields is addition. -/
theorem lor_shiftLeft_eq_add (x y n : Nat) (h : x < 2 ^ n) :
    x ||| (y <<< n) = x + y * 2 ^ n := by
  rw [Nat.shiftLeft_eq, Nat.lor_comm, mul_comm y _, ← Nat.mul_add_lt_is_or h]
  ring

/-- The LSB-first reading of a two-field word splits at the field border. -/
theorem bitsOf_split : ∀ (n k x y : Nat), x < 2 ^ n →
    bitsOf (n + k) (x + y * 2 ^ n) = bitsOf n x ++ bitsOf k y
  | 0, k, x, y, h => by
    have hx : x = 0 := by omega
    subst hx
    simp [bitsOf]
  | n + 1, k, x, y, h => by
    have hsucc : n + 1 + k = (n + k) + 1 := by omega
    rw [hsucc, bitsOf]
    have h2 : (2 : Nat) ^ (n + 1) = 2 ^ n * 2 := by rw [pow_succ]
    have hmod : (x + y * 2 ^ (n + 1)) % 2 = x % 2 := by
      rw [h2, show y * (2 ^ n * 2) = y * 2 ^ n * 2 from by ring]
      exact Nat.add_mul_mod_self_right x (y * 2 ^ n) 2
    have hdiv : (x + y * 2 ^ (n + 1)) / 2 = x / 2 + y * 2 ^ n := by
      rw [h2, show y * (2 ^ n * 2) = y * 2 ^ n * 2 from by ring]
      exact Nat.add_mul_div_right x (y * 2 ^ n) (by norm_num)
    rw [hmod, hdiv, bitsOf_split n k (x / 2) y (by omega)]
    rw [bitsOf]
    rfl

/-- An all-ones field reads as a run of 1 bits. -/
theorem bitsOf_all_ones : ∀ n : Nat, bitsOf n (2 ^ n - 1) = List.replicate n 1
  | 0 => rfl
  | n + 1 => by
    have h2 : (2 : Nat) ^ (n + 1) = 2 ^ n * 2 := by rw [pow_succ]
    have hpos : 0 < (2 : Nat) ^ n := Nat.pos_pow_of_pos n (by norm_num)
    rw [bitsOf]
    have hmod : (2 ^ (n + 1) - 1) % 2 = 1 := by omega
    have hdiv : (2 ^ (n + 1) - 1) / 2 = 2 ^ n - 1 := by omega
    rw [hmod, hdiv, bitsOf_all_ones n]
    rfl

/-- C1 (counterexample): with a validated configuration whose bit width is
7 (one stop bit, bit period 104) the encoder does not advance the cursor
by `bitPeriod × (1 + bitWidth + stopBits) = 104 × 9 = 936` for byte 255 —
it frames 8 data bits regardless and advances by `104 × 10 = 1040`. -/
theorem swFrame_width7_cex :
    (_jswrap_serial_print_sw 255
        { inf := { jshUSARTInitInfo with bytesize := 7 }, time := 0,
          bitLength := 104 }).1.time
      ≠ 104 * (1 + 7 + 1) := by
  decide

/-- C1 (amended): the software encoder overrides the configured bit width
with 8 (line 243): for every byte value and every stop-bit count the
composite pattern it builds, read LSB first, is the spec's pattern at bit
width 8 — start bit 0, then the byte's 8 value bits LSB first, then
`stopBits` logic-1 bits — for a total bit count `1 + 8 + stopBits`,
whatever bit width the validated configuration carries. -/
theorem swFrame_forces_width8 (stop data : Nat) (h : data < 256) :
    bitsOf (swFrameCount 8 stop) (swFrameData 8 stop data)
      = specCompositePattern 8 stop data ∧
    swFrameCount 8 stop = 1 + 8 + stop ∧
    ∀ s : SWSerialStruct, (_jswrap_serial_print_sw data s).1.inf.bytesize = 8 := by
  refine ⟨?_, rfl, fun s => rfl⟩
  have hfd : swFrameData 8 stop data = data * 2 + (2 ^ stop - 1) * 2 ^ 9 := by
    rw [swFrameData, show (1 + 8 : Nat) = 9 from rfl,
      Nat.and_pow_two_sub_one_eq_mod, Nat.mod_eq_of_lt (by omega : data < 2 ^ 8),
      show data <<< 1 = data * 2 from by rw [Nat.shiftLeft_eq]]
    exact lor_shiftLeft_eq_add _ _ _ (by omega)
  have hcount : swFrameCount 8 stop = 9 + stop := by
    rw [swFrameCount]
  rw [hcount, hfd, bitsOf_split 9 stop (data * 2) (2 ^ stop - 1) (by omega)]
  have hlow : bitsOf 9 (data * 2) = 0 :: bitsOf 8 data := by
    rw [bitsOf, Nat.mul_mod_left, Nat.mul_div_cancel data (by norm_num : 0 < 2)]
  rw [hlow, bitsOf_all_ones, bitsOf_eq_range_map, specCompositePattern, List.cons_append]

/-- Witness for C1 (amended) at one stop bit and byte 65. -/
theorem swFrame_forces_width8_wit :
    bitsOf (swFrameCount 8 1) (swFrameData 8 1 65) = specCompositePattern 8 1 65 ∧
    swFrameCount 8 1 = 1 + 8 + 1 ∧
    ∀ s : SWSerialStruct, (_jswrap_serial_print_sw 65 s).1.inf.bytesize = 8 :=
  swFrame_forces_width8 1 65 (by decide)

end Espruino







